import Mathlib

/-!
Verification of the OpenAPI-to-Zapier descriptor generator.

Shallow embedding of the JavaScript sources
* scripts/utils/openapi_parser.js   (schema and reference resolution),
* scripts/utils/schema_mapper.js    (schema to field mapping),
* scripts/generate_zapier_from_openapi.js (action and trigger generation).

JavaScript values are modeled by JVal.  The generator only manipulates
integer ids and whole numbers, so JS numbers are modeled by Int; JS strings
are modeled by Lean String, or by List Char where character-level
reasoning (truncation, trimming) is needed.
-/

namespace OpenapiZapier

/-- JavaScript runtime values, as far as the generator manipulates them. -/
inductive JVal where
  | undefined : JVal
  | null : JVal
  | bool : Bool → JVal
  | num : Int → JVal
  | str : String → JVal
  | arr : List JVal → JVal
  | obj : List (String × JVal) → JVal

/-! ### Character-list string utilities

JS strings are sequences of code units; the string operations the
generator uses are modeled on lists of characters so that every
definition evaluates by kernel reduction. -/

/-- Does the first list start with the second? -/
def charListStarts : List Char → List Char → Bool
  | _, [] => true
  | [], _ :: _ => false
  | c :: cs, d :: ds => c == d && charListStarts cs ds

/-- JS s.startsWith(p). -/
def strStarts (s p : String) : Bool :=
  charListStarts s.toList p.toList

/-- Fuelled worker for splitOnCL; the fuel is the input length plus one,
so it never runs out. -/
def splitOnCLAux (sep : List Char) : Nat → List Char → List Char →
    List (List Char)
  | 0, _, acc => [acc.reverse]
  | _ + 1, [], acc => [acc.reverse]
  | fuel + 1, c :: rest, acc =>
      if charListStarts (c :: rest) sep then
        acc.reverse :: splitOnCLAux sep fuel ((c :: rest).drop sep.length) []
      else
        splitOnCLAux sep fuel rest (c :: acc)

/-- JS s.split(sep) for a non-empty separator. -/
def splitOnCL (sep l : List Char) : List (List Char) :=
  if sep.isEmpty then [l] else splitOnCLAux sep (l.length + 1) l []

/-- Join chunks with a separator (JS array.join). -/
def joinSepCL (sep : List Char) : List (List Char) → List Char
  | [] => []
  | [w] => w
  | w :: ws => w ++ sep ++ joinSepCL sep ws

/-- Digit accumulation for integer parsing. -/
def natOfDigitsAux : List Char → Nat → Option Nat
  | [], acc => some acc
  | c :: rest, acc =>
      if c.isDigit then natOfDigitsAux rest (acc * 10 + (c.toNat - '0'.toNat))
      else none

/-- Integer parsing of a clean token (models parseInt and Number on the
integer tokens the generator handles; none models NaN). -/
def intOfChars : List Char → Option Int
  | [] => none
  | '-' :: rest =>
      match rest with
      | [] => none
      | _ => (natOfDigitsAux rest 0).map (fun n => -(n : Int))
  | '+' :: rest =>
      match rest with
      | [] => none
      | _ => (natOfDigitsAux rest 0).map (fun n => (n : Int))
  | l => (natOfDigitsAux l 0).map (fun n => (n : Int))

/-- JS String.prototype.trim, leading side. -/
def trimStart (l : List Char) : List Char :=
  l.dropWhile Char.isWhitespace

/-- JS String.prototype.trim, trailing side. -/
def trimEnd (l : List Char) : List Char :=
  (l.reverse.dropWhile Char.isWhitespace).reverse

/-- JS String.prototype.trim. -/
def jsTrim (l : List Char) : List Char :=
  trimStart (trimEnd l)

/-- JS s.toLowerCase() (ASCII, which covers the generator's inputs). -/
def lowerCL (l : List Char) : List Char :=
  l.map Char.toLower

/-- JS Number(v) restricted to the integer domain the generator works in:
none models NaN.  Number of an array or object and fractional numeric
strings do not occur in the generator's id domain and are mapped to NaN. -/
def jsToNumber : JVal → Option Int
  | .num n => some n
  | .str s =>
      let t := jsTrim s.toList
      if t = [] then some 0 else intOfChars t
  | .bool b => some (if b then 1 else 0)
  | .null => some 0
  | .undefined => none
  | .arr _ => none
  | .obj _ => none

/-- JS truthiness. -/
def jsTruthy : JVal → Bool
  | .undefined => false
  | .null => false
  | .bool b => b
  | .num n => n != 0
  | .str s => s != ""
  | .arr _ => true
  | .obj _ => true

/-- JS String(v) on the scalar values the generator converts. -/
def jsToString : JVal → String
  | .str s => s
  | .num n => toString n
  | .bool b => if b then "true" else "false"
  | .null => "null"
  | .undefined => "undefined"
  | .arr _ => ""
  | .obj _ => ""

/-- Property lookup on a JS object value: absent keys read as undefined. -/
def objGet (fields : List (String × JVal)) (k : String) : JVal :=
  match fields.lookup k with
  | some v => v
  | none => .undefined

/-! ## OpenAPIParser.resolveSchema (scripts/utils/openapi_parser.js, lines 151-356) -/

/-- An OpenAPI schema node as read by OpenAPIParser.resolveSchema: an
optional reference, optional allOf/oneOf/anyOf member lists, a type tag,
optional properties (whose values may be null after resolution), optional
items (absent, null, or a node) and an optional required list. -/
inductive ONode where
  | mk (ref : Option String)
       (allOf : Option (List ONode))
       (oneOf : Option (List ONode))
       (anyOf : Option (List ONode))
       (typ : Option String)
       (properties : Option (List (String × Option ONode)))
       (items : Option (Option ONode))
       (required : Option (List String)) : ONode

def ONode.ref : ONode → Option String
  | .mk r _ _ _ _ _ _ _ => r

def ONode.allOf : ONode → Option (List ONode)
  | .mk _ a _ _ _ _ _ _ => a

def ONode.oneOf : ONode → Option (List ONode)
  | .mk _ _ o _ _ _ _ _ => o

def ONode.anyOf : ONode → Option (List ONode)
  | .mk _ _ _ a _ _ _ _ => a

def ONode.typ : ONode → Option String
  | .mk _ _ _ _ t _ _ _ => t

def ONode.properties : ONode → Option (List (String × Option ONode))
  | .mk _ _ _ _ _ p _ _ => p

def ONode.items : ONode → Option (Option ONode)
  | .mk _ _ _ _ _ _ i _ => i

def ONode.required : ONode → Option (List String)
  | .mk _ _ _ _ _ _ _ r => r

/-- A plain schema node that carries only a reference. -/
def ONode.refNode (r : String) : ONode :=
  ONode.mk (some r) none none none none none none none

/-- JS object spread merge on string-keyed association lists:
keys of a keep their position with values overridden by b, keys of b not
in a are appended in order.  Models merged.properties = spread of both. -/
def objMerge (a b : List (String × α)) : List (String × α) :=
  a.map (fun p =>
    match b.find? (fun q => q.1 = p.1) with
    | some q => (p.1, q.2)
    | none => p) ++
  b.filter (fun q => (a.find? (fun p => p.1 = q.1)).isNone)

/-- OpenAPIParser.resolveRef (openapi_parser.js lines 154-171), restricted
to references into the components.schemas registry, the only references the
generator's documents use; any other reference fails the path walk and
yields null exactly as in the source.  The prefix has 21 characters. -/
def resolveRef (doc : List (String × ONode)) (r : String) : Option ONode :=
  if strStarts r "#/components/schemas/" then
    (doc.find? (fun p => p.1 = r.drop 21)).map (fun p => p.2)
  else
    none

mutual

/-- Fuelled interpreter for OpenAPIParser.resolveSchema (openapi_parser.js
lines 300-356).  The source recurses without any visited set; the fuel
argument bounds the recursion depth so the interpreter is total.  An outer
none means the recursion budget was exhausted; some none models the
source returning null (unresolvable reference). -/
def resolveSchema : Nat → List (String × ONode) → Option ONode → Option (Option ONode)
  | _, _, none => some none
  | 0, _, some _ => none
  | fuel+1, doc, some s =>
    match s.ref with
    | some r =>
      match resolveRef doc r with
      | some t => resolveSchema fuel doc (some t)
      | none => some none
    | none =>
      match s.allOf with
      | some members => resolveAllOf fuel doc members [] []
      | none =>
        match (match s.oneOf with | some l => some l | none => s.anyOf) with
        | some (o :: _) => resolveSchema fuel doc (some o)
        | _ =>
          do
            let props ←
              match s.properties with
              | some ps => do
                  let rps ← resolveProps fuel doc ps
                  pure (some rps)
              | none => pure none
            let its ←
              match s.items with
              | some (some i) => do
                  let ri ← resolveSchema fuel doc (some i)
                  pure (some ri)
              | other => pure other
            pure (some (ONode.mk s.ref s.allOf s.oneOf s.anyOf s.typ props its s.required))
termination_by fuel _ _ => (fuel, 0)

/-- Nested-property resolution of the copy branch of resolveSchema:
each property value is resolved with the same recursion budget. -/
def resolveProps : Nat → List (String × ONode) → List (String × Option ONode) →
    Option (List (String × Option ONode))
  | _, _, [] => some []
  | fuel, doc, (k, v) :: rest => do
      let rv ← resolveSchema fuel doc v
      let rs ← resolveProps fuel doc rest
      pure ((k, rv) :: rs)
termination_by fuel _ ps => (fuel, ps.length + 1)

/-- The allOf branch of resolveSchema: merge member properties (later
members overwrite earlier keys) and concatenate required lists. -/
def resolveAllOf : Nat → List (String × ONode) → List ONode →
    List (String × Option ONode) → List String → Option (Option ONode)
  | _, _, [], props, req =>
      some (some (ONode.mk none none none none (some "object") (some props) none (some req)))
  | fuel, doc, m :: rest, props, req => do
      let r ← resolveSchema fuel doc (some m)
      match r with
      | some rn =>
          let props2 :=
            match rn.properties with
            | some ps => objMerge props ps
            | none => props
          let req2 :=
            match rn.required with
            | some rq => req ++ rq
            | none => req
          resolveAllOf fuel doc rest props2 req2
      | none => resolveAllOf fuel doc rest props req
termination_by fuel _ ms _ _ => (fuel, ms.length + 1)

end

/-! ## Pagination loop (generate_zapier_from_openapi.js, lines 2110-2147) -/

/-- One server response consumed by the generated pagination loop: the page
of items extracted from the response body and the has_more flag. -/
structure Page (α : Type) where
  items : List α
  hasMore : Bool
  deriving DecidableEq

/-- Semantics of the while loop in the generated polling-trigger perform
code: starting at the given offset, consume server responses in order;
after each page, continue exactly when response.json.has_more === true and
pageResults.length === limit, advancing the offset by limit.  Returns the
accumulated items together with the list of offsets requested.  An empty
response list means the server gave no response for the pending request;
no request is recorded for it. -/
def paginate (limit : Nat) : Nat → List (Page α) → List α × List Nat
  | _, [] => ([], [])
  | off, p :: rest =>
    if p.hasMore && p.items.length == limit then
      let r := paginate limit (off + limit) rest
      (p.items ++ r.1, off :: r.2)
    else
      (p.items, [off])

/-! ## Trigger input-field placeholder (generate_zapier_from_openapi.js, lines 1937-1947) -/

/-- Zapier input field record as constructed by the generator and the
schema mapper.  dynKey models the pair of the dynamic flag and dynamicKey
string (both are set together in the source). -/
inductive ZField where
  | mk (key label typ helpText : String) (required : Bool)
       (choices : Option (List String)) (default : Option JVal)
       (placeholder : Option String) (children : Option (List ZField))
       (dynKey : Option String) : ZField

def ZField.key : ZField → String
  | .mk k _ _ _ _ _ _ _ _ _ => k

def ZField.label : ZField → String
  | .mk _ l _ _ _ _ _ _ _ _ => l

def ZField.typ : ZField → String
  | .mk _ _ t _ _ _ _ _ _ _ => t

def ZField.helpText : ZField → String
  | .mk _ _ _ h _ _ _ _ _ _ => h

def ZField.required : ZField → Bool
  | .mk _ _ _ _ r _ _ _ _ _ => r

def ZField.choices : ZField → Option (List String)
  | .mk _ _ _ _ _ c _ _ _ _ => c

def ZField.default : ZField → Option JVal
  | .mk _ _ _ _ _ _ d _ _ _ => d

def ZField.placeholder : ZField → Option String
  | .mk _ _ _ _ _ _ _ p _ _ => p

def ZField.children : ZField → Option (List ZField)
  | .mk _ _ _ _ _ _ _ _ c _ => c

def ZField.dynKey : ZField → Option String
  | .mk _ _ _ _ _ _ _ _ _ d => d

/-- A plain scalar field with no choices, default, placeholder, children
or dynamic binding. -/
def ZField.base (key label typ helpText : String) (required : Bool) : ZField :=
  ZField.mk key label typ helpText required none none none none none

/-- The placeholder field pushed for hidden triggers with no input fields
(generate_zapier_from_openapi.js lines 1939-1946). -/
def placeholderField : ZField :=
  ZField.mk "id_placeholder" "ID Placeholder" "string"
    "This is a placeholder field to satisfy Zapier validation (D009)." false
    none (some (JVal.str "placeholder")) none none none

/-- generateTrigger lines 1937-1947: a hidden trigger whose computed input
field list is empty gets the placeholder field appended. -/
def finalTriggerInputFields (isHidden : Bool) (fields : List ZField) : List ZField :=
  if isHidden && fields.length == 0 then fields ++ [placeholderField] else fields

/-! ## Description truncation and period handling
(generate_zapier_from_openapi.js, lines 1547-1551 and 2045-2059).
JS strings are modeled as lists of characters here so that truncation and
trimming can be reasoned about character by character. -/

/-- JS s1 or-else s2 on strings: the first operand when truthy (non-empty). -/
def jsOrStr (a b : List Char) : List Char :=
  if a = [] then b else a

/-- The Zapier 1000-character description cap: text longer than 1000
characters becomes its first 997 characters followed by three dots. -/
def truncateDescription (l : List Char) : List Char :=
  if l.length > 1000 then l.take 997 ++ ['.', '.', '.'] else l

/-- generateAction lines 1547-1551: an action description is the endpoint
description, else its summary, else empty, then capped at 1000 chars. -/
def actionDescription (desc summ : List Char) : List Char :=
  truncateDescription (jsOrStr desc (jsOrStr summ []))

/-- generateTrigger lines 2045-2059, visible branch: the description is the
configured title, else the endpoint description, else its summary; when
non-empty and its trimmed form does not end in a period, the trimmed form
gets a period appended; then the 1000-character cap is applied. -/
def triggerVisibleDescription (title desc summ : List Char) : List Char :=
  let d := jsOrStr title (jsOrStr desc (jsOrStr summ []))
  let d2 :=
    if d ≠ [] ∧ (jsTrim d).getLast? ≠ some '.' then jsTrim d ++ ['.'] else d
  truncateDescription d2

/-! ## Result sorting for polling triggers
(generate_zapier_from_openapi.js, lines 1806-1816) -/

/-- A trigger result item: its id field (absent ids read as 0 through the
JS expression (x.id or 0)) and an opaque tag standing for the rest of the
item's payload. -/
structure RItem where
  id : Option Int
  tag : String
  deriving DecidableEq

/-- The id key used by the generated comparator, with a missing id read
as 0. -/
def idOf (x : RItem) : Int := x.id.getD 0

/-- Semantics of results.sort((a, b) => (b.id or 0) - (a.id or 0)): a
stable sort that puts larger ids first (ES2019 Array.prototype.sort is
stable, and the numeric comparator orders by descending id). -/
def sortResults (l : List RItem) : List RItem :=
  l.mergeSort (fun a b => decide (idOf b ≤ idOf a))

/-- The sort fragment is generated only for non-hidden (polling) triggers
(the guard at line 1809); hidden triggers keep the accumulated order. -/
def sortFragment (isHidden : Bool) (results : List RItem) : List RItem :=
  if isHidden then results else sortResults results

/-- Modelled from the spec: the perform plan of a trigger applies the sort
fragment to the accumulated results and only then the configured filter
fragment, returning the filtered list.  The sort and filter fragments
themselves are translated from the source
(generate_zapier_from_openapi.js lines 1806-1816 and 1818-1845); the
trigger template that splices the fragments into the perform function is
the external Renderer, which is out of scope for the compiler core. -/
def triggerPerform (isHidden : Bool) (results : List RItem) (keep : RItem → Bool) :
    List RItem :=
  (sortFragment isHidden results).filter keep

/-! ## SchemaMapper (scripts/utils/schema_mapper.js) -/

/-- A schema node as consumed by the SchemaMapper: raw component schemas
and parser-resolved schemas both have this shape. -/
inductive MSchema where
  | mk (ref : Option String)
       (typ : Option String)
       (format : Option String)
       (enum : Option (List JVal))
       (default : Option JVal)
       (description : Option String)
       (properties : Option (List (String × MSchema)))
       (items : Option MSchema)
       (required : Option (List String)) : MSchema

def MSchema.ref : MSchema → Option String
  | .mk r _ _ _ _ _ _ _ _ => r

def MSchema.typ : MSchema → Option String
  | .mk _ t _ _ _ _ _ _ _ => t

def MSchema.format : MSchema → Option String
  | .mk _ _ f _ _ _ _ _ _ => f

def MSchema.enum : MSchema → Option (List JVal)
  | .mk _ _ _ e _ _ _ _ _ => e

def MSchema.default : MSchema → Option JVal
  | .mk _ _ _ _ d _ _ _ _ => d

def MSchema.description : MSchema → Option String
  | .mk _ _ _ _ _ d _ _ _ => d

def MSchema.properties : MSchema → Option (List (String × MSchema))
  | .mk _ _ _ _ _ _ p _ _ => p

def MSchema.items : MSchema → Option MSchema
  | .mk _ _ _ _ _ _ _ i _ => i

def MSchema.required : MSchema → Option (List String)
  | .mk _ _ _ _ _ _ _ _ r => r

/-- The empty schema object, standing for the JS fallback (schema or empty
object). -/
def MSchema.empty : MSchema :=
  .mk none none none none none none none none none

/-- JS s.includes(sub) for non-empty sub, via splitting. -/
def strIncludes (s sub : String) : Bool :=
  (splitOnCL sub.toList s.toList).length > 1

/-- JS a or-else b on plain strings (first operand when non-empty). -/
def jsOrStrS (a b : String) : String :=
  if a ≠ "" then a else b

/-- SchemaMapper.formatLabel: underscores become spaces, a space is
inserted before each uppercase letter, the result is trimmed, split on
single spaces, each word capitalized (first char up, rest down) and the
words rejoined with single spaces. -/
def capitalizeWordCL : List Char → List Char
  | [] => []
  | c :: rest => c.toUpper :: rest.map Char.toLower

def formatLabel (name : String) : String :=
  let s1 := name.toList.map (fun c => if c = '_' then ' ' else c)
  let s2 := s1.flatMap (fun c => if c.isUpper then [' ', c] else [c])
  let s3 := jsTrim s2
  String.mk (joinSepCL [' '] ((splitOnCL [' '] s3).map capitalizeWordCL))

/-- SchemaMapper.schemaToZapierField (schema_mapper.js lines 16-94). -/
def schemaToZapierField (schema : Option MSchema) (fieldName : String)
    (isRequired : Bool) (description : Option String) : ZField :=
  match schema with
  | none =>
      ZField.mk fieldName (formatLabel fieldName) "string"
        (description.getD "") false none none none none none
  | some s =>
      let ht0 := jsOrStrS (description.getD "") (s.description.getD "")
      let mkF := fun (typ helpText : String) (choices : Option (List String))
          (ph : Option String) =>
        let d : Option JVal :=
          match s.default with
          | some v => if typ = "string" then some v else none
          | none => none
        ZField.mk fieldName (formatLabel fieldName) typ helpText isRequired
          choices d ph none none
      match s.typ with
      | some "string" =>
          if s.format = some "date" then
            let ht :=
              if ht0 ≠ "" ∧ strIncludes ht0 "YYYY-MM-DD" = false then
                ht0 ++ " (Format: YYYY-MM-DD)"
              else if ht0 = "" then "Format: YYYY-MM-DD"
              else ht0
            mkF "string" ht none (some "YYYY-MM-DD")
          else if s.format = some "date-time" then
            mkF "datetime" ht0 none none
          else
            match s.enum with
            | some l => mkF "string" ht0 (some (l.map jsToString)) none
            | none => mkF "string" ht0 none none
      | some "integer" => mkF "number" ht0 (s.enum.map (fun l => l.map jsToString)) none
      | some "number" => mkF "number" ht0 (s.enum.map (fun l => l.map jsToString)) none
      | some "boolean" => mkF "boolean" ht0 none none
      | some "array" => mkF "string" (s.description.getD "" ++ " (JSON array format)") none none
      | some "object" => mkF "string" (s.description.getD "" ++ " (JSON object format)") none none
      | _ => mkF "string" ht0 none none

/-- SchemaMapper.schemaPropertiesToZapierFields (schema_mapper.js
lines 131-145). -/
def schemaPropertiesToZapierFields (schema : Option MSchema)
    (requiredFields : List String) : List ZField :=
  match schema with
  | some s =>
      match s.properties with
      | some props =>
          props.map (fun kv =>
            schemaToZapierField (some kv.2) kv.1 (requiredFields.contains kv.1) none)
      | none => []
  | none => []

/-- The request body record the parser hands the mapper. -/
structure RequestBodyInfo where
  required : Bool
  schema : Option MSchema

/-- SchemaMapper.requestBodyToZapierFields (schema_mapper.js
lines 117-126). -/
def requestBodyToZapierFields (rb : Option RequestBodyInfo) : List ZField :=
  match rb with
  | some r =>
      match r.schema with
      | some s => schemaPropertiesToZapierFields (some s) (s.required.getD [])
      | none => []
  | none => []

/-- SchemaMapper.resolveRef (schema_mapper.js lines 335-352): the path is
walked against the schemas registry itself, so only a single-component
path (a reference of the shape hash-slash-name) can hit a registry key;
a standard components/schemas reference fails at its first component and
yields null, exactly as in the source. -/
def mresolveRef (schemas : List (String × MSchema)) (r : String) : Option MSchema :=
  if strStarts r "#/" then
    match splitOnCL ['/'] (r.toList.drop 2) with
    | [p] => (schemas.find? (fun q => q.1 = String.mk p)).map (fun q => q.2)
    | _ => none
  else none

/-- SchemaMapper.getArrayPropertyName (schema_mapper.js lines 281-330),
fuelled because the source recurses through references without a guard. -/
def getArrayPropertyName (fuel : Nat) (schemas : List (String × MSchema)) :
    Option MSchema → Option String
  | none => none
  | some s =>
    match fuel with
    | 0 => none
    | fuel + 1 =>
      match s.ref with
      | some r =>
          match mresolveRef schemas r with
          | some t => getArrayPropertyName fuel schemas (some t)
          | none => none
      | none =>
        if s.typ = some "array" then none
        else if s.typ = some "object" then
          match s.properties with
          | some props =>
              let arrayProps := props.filter (fun kv =>
                let propSchema :=
                  match kv.2.ref with
                  | some r => (mresolveRef schemas r).getD kv.2
                  | none => kv.2
                propSchema.typ == some "array")
              match arrayProps with
              | p :: _ => some p.1
              | [] => none
          | none => none
        else none

/-! ## Helper-field merge into array-typed targets
(generate_zapier_from_openapi.js, lines 1230-1263 and 1021-1062) -/

/-- The helper-value screen of the generated merge code: a value
contributes its coerced number exactly when it is not undefined, not the
empty string, not null, not the number 0, Number of it is not NaN and the
parsed number is non-zero. -/
def helperIdOf (v : JVal) : Option Int :=
  match v with
  | .undefined => none
  | .null => none
  | .str "" => none
  | .num 0 => none
  | w =>
      match jsToNumber w with
      | some n => if n = 0 then none else some n
      | none => none

/-- All helper contributions, in configuration order. -/
def helperIds (vals : List JVal) : List Int :=
  vals.filterMap helperIdOf

/-- JS new Set(list) iteration order worker: keep each element the first
time it appears, tracking what has been seen. -/
def jsSetDedupAux (seen : List Int) : List Int → List Int
  | [] => []
  | x :: xs =>
      if seen.contains x then jsSetDedupAux seen xs
      else x :: jsSetDedupAux (x :: seen) xs

/-- JS new Set(list) iteration order: first occurrences, in order. -/
def jsSetDedup (l : List Int) : List Int :=
  jsSetDedupAux [] l

/-- The generated comma-separated id parser:
split(',').map(parseInt(trim)).filter(not NaN), for integer tokens. -/
def parseIdCsv (s : String) : List Int :=
  ((splitOnCL [','] s.toList).map (fun t => intOfChars (jsTrim t))).filterMap id

/-- The pre-existing value of the merge target: the value already placed
on the request body when it is an array, else the raw input value parsed
from a comma-separated string or taken from an array (the generated
arrays are arrays of numbers; their numeric elements model that). -/
def computeExistingIds (bodyVal : Option (List Int)) (inputVal : JVal) : List Int :=
  match bodyVal with
  | some xs => xs
  | none =>
      match inputVal with
      | .str "" => []
      | .str s => parseIdCsv s
      | .arr xs => xs.filterMap (fun v => match v with | .num n => some n | _ => none)
      | _ => []

/-- The merge of helper values into an array-typed target property:
spread existing then helper ids into a Set, filter to positive ids, and
set the target only when the merged list is non-empty (some result);
none models the target property being omitted. -/
def mergeHelperIds (existing : List Int) (vals : List JVal) : Option (List Int) :=
  let merged := (jsSetDedup (existing ++ helperIds vals)).filter (fun i => decide (0 < i))
  if 0 < merged.length then some merged else none

/-! ## Configuration validation (generate_zapier_from_openapi.js,
lines 554-585 and 712-735) -/

/-- The fatal configuration errors thrown by generateAction, carrying
exactly the data interpolated into the thrown message. -/
inductive GenError where
  | invalidAdditionalProps (opId : String) (keys : List String)
  | additionalPropsNoProperties (opId : String)
  | invalidFieldDefaults (opId : String) (keys : List String)
  deriving DecidableEq

/-- The thrown message text of each error (grouped so that the operation
id and the key list are visible subterms). -/
def GenError.message : GenError → String
  | .invalidAdditionalProps opId keys =>
      "Action \"" ++ (opId ++
        ("\": The following properties in simplify.additionalProperties do not exist in the request body schema: " ++
          String.intercalate ", " keys))
  | .additionalPropsNoProperties opId =>
      "Action \"" ++ (opId ++
        "\": Cannot use simplify.additionalProperties because the request body schema has no properties")
  | .invalidFieldDefaults opId keys =>
      "Action \"" ++ (opId ++
        ("\": The following properties in fieldDefaults do not exist in the input fields: " ++
          String.intercalate ", " keys))

/-- Lines 554-568 and 580-584: the simplify.additionalProperties names are
validated against the request body schema's property names; a missing
properties object is itself fatal. -/
def checkAdditionalProperties (opId : String) (bodyProps : Option (List String))
    (addProps : List String) : Except GenError Unit :=
  match bodyProps with
  | some props =>
      let invalid := addProps.filter (fun p => !(props.contains p))
      if 0 < invalid.length then .error (.invalidAdditionalProps opId invalid)
      else .ok ()
  | none => .error (.additionalPropsNoProperties opId)

/-- Lines 712-723: every fieldDefaults key must name a computed input
field. -/
def checkFieldDefaults (opId : String) (inputFieldKeys : List String)
    (defaultKeys : List String) : Except GenError Unit :=
  let invalid := defaultKeys.filter (fun k => !(inputFieldKeys.contains k))
  if 0 < invalid.length then .error (.invalidFieldDefaults opId invalid)
  else .ok ()

/-- The validation gate of generateAction in source order: the
additionalProperties check (only when simplify.flattenArray is active and
additionalProperties is configured) runs while the body fields are built,
the fieldDefaults check (only when fieldDefaults is configured) runs once
the input fields are complete; only then is a descriptor produced (the
computed input field keys stand for it). -/
def actionConfigGate (opId : String) (simplifyAdd : Option (List String))
    (bodyProps : Option (List String)) (inputFieldKeys : List String)
    (fieldDefaultKeys : Option (List String)) : Except GenError (List String) := do
  (match simplifyAdd with
   | some addProps => checkAdditionalProperties opId bodyProps addProps
   | none => Except.ok ())
  (match fieldDefaultKeys with
   | some dk => checkFieldDefaults opId inputFieldKeys dk
   | none => Except.ok ())
  Except.ok inputFieldKeys

/-! ## Simplify (array flattening) configuration -/

/-- The simplify.flattenArray configuration block. -/
structure SimplifyFlatten where
  arrayField : String
  itemSchema : String
  publicName : Option String
  deriving DecidableEq

/-- The simplify.responseExtraction configuration block. -/
structure RespExtraction where
  extractSingle : Bool
  arrayProperty : Option String
  deriving DecidableEq

/-- The per-action simplify configuration. -/
structure SimplifyCfg where
  enabled : Bool
  flattenArray : Option SimplifyFlatten
  additionalProperties : Option (List String)
  responseExtraction : Option RespExtraction
  deriving DecidableEq

/-- Whitespace-run squashing worker for slugify: each maximal run of
whitespace becomes a single underscore (the flag records whether the
previous character was whitespace). -/
def squashWsAux : Bool → List Char → List Char
  | _, [] => []
  | prevWs, c :: rest =>
      if c.isWhitespace then
        if prevWs then squashWsAux true rest
        else '_' :: squashWsAux true rest
      else c :: squashWsAux false rest

/-- The slug of a public grouping name:
publicName.toLowerCase().replace(whitespace-runs, single underscore). -/
def slugify (s : String) : String :=
  String.mk (squashWsAux false (lowerCL s.toList))

/-- generateAction lines 507-549: the body fields produced by
simplify.flattenArray.  With a public grouping name the filtered item
fields become the children of one required parent object field keyed by
the slugified name; without one they are spliced in directly. -/
def simplifyItemFields (schemas : List (String × MSchema)) (fa : SimplifyFlatten)
    (hide : List String) : List ZField :=
  match schemas.lookup fa.itemSchema with
  | some its =>
      match its.properties with
      | some _ =>
          let itemFields := schemaPropertiesToZapierFields (some its) (its.required.getD [])
          match fa.publicName with
          | some pn =>
              let filtered := itemFields.filter (fun f => !(hide.contains f.key))
              [ZField.mk (slugify pn) pn "object" "" true none none none (some filtered) none]
          | none => itemFields
      | none => []
  | none => []

/-- generateAction lines 503-614: the request-body derived input fields,
including the simplify.additionalProperties validation and extraction
(lines 554-585), the hidden-property filter on fields and their children
(lines 593-602) and the deduplication against already present parameter
keys (lines 604-608). -/
def actionBodyFields (opId : String) (schemas : List (String × MSchema))
    (requestBody : Option RequestBodyInfo) (simplify : Option SimplifyCfg)
    (hide : List String) (existingKeys : List String) :
    Except GenError (List ZField) :=
  match requestBody with
  | none => .ok []
  | some rb => do
      let simplifiedFA :=
        match simplify with
        | some c => if c.enabled then c.flattenArray else none
        | none => none
      let bodyFields ←
        match simplifiedFA with
        | some fa => do
            let base := simplifyItemFields schemas fa hide
            match (match simplify with | some c => c.additionalProperties | none => none) with
            | some addProps =>
                match rb.schema with
                | some s =>
                    match s.properties with
                    | some props => do
                        let propKeys := props.map (fun kv => kv.1)
                        let invalid := addProps.filter (fun p => !(propKeys.contains p))
                        if 0 < invalid.length then
                          Except.error (GenError.invalidAdditionalProps opId invalid)
                        else
                          let allRB := requestBodyToZapierFields (some rb)
                          let addFields := allRB.filter (fun f =>
                            addProps.contains f.key && f.key != fa.arrayField)
                          pure (base ++ addFields)
                    | none => Except.error (GenError.additionalPropsNoProperties opId)
                | none => Except.error (GenError.additionalPropsNoProperties opId)
            | none => pure base
        | none => pure (requestBodyToZapierFields (some rb))
      let filtered := (bodyFields.map (fun f =>
          match f.children with
          | some cs =>
              ZField.mk f.key f.label f.typ f.helpText f.required f.choices
                f.default f.placeholder (some (cs.filter (fun c => !(hide.contains c.key))))
                f.dynKey
          | none => f)).filter (fun f => !(hide.contains f.key))
      pure (filtered.filter (fun f => !(existingKeys.contains f.key)))

/-- A parameter as extracted by the parser. -/
structure ParamInfo where
  name : String
  location : String
  required : Bool
  description : Option String
  schema : Option MSchema

/-- SchemaMapper.parametersToZapierFields (schema_mapper.js lines 99-112). -/
def parametersToZapierFields (params : List ParamInfo) : List ZField :=
  (params.filter (fun p => p.location == "query" || p.location == "path")).map (fun p =>
    let schema := p.schema.getD MSchema.empty
    let description :=
      match p.description with
      | some d => if d ≠ "" then some d else schema.description
      | none => schema.description
    schemaToZapierField (some schema) p.name p.required description)

/-- generateAction lines 495-614: the full input field list of an action,
parameter fields first, then the deduplicated body fields. -/
def actionInputFields (opId : String) (schemas : List (String × MSchema))
    (paramFields : List ZField) (requestBody : Option RequestBodyInfo)
    (simplify : Option SimplifyCfg) (hide : List String) :
    Except GenError (List ZField) := do
  let existingKeys := paramFields.map ZField.key
  let bf ← actionBodyFields opId schemas requestBody simplify hide existingKeys
  pure (paramFields ++ bf)

/-! ## Emitted field descriptors (generate_zapier_from_openapi.js,
generateFieldCode, lines 1344-1421) -/

/-- A child field as emitted by generateFieldCode: always carries a type
and can never carry children of its own (the emitter only descends one
level). -/
structure EmittedChild where
  key : String
  label : String
  typ : String
  helpText : Option String
  required : Bool
  choices : Option (List String)
  default : Option String
  placeholder : Option String
  dynamic : Option String
  deriving DecidableEq

/-- A top-level field as emitted by generateFieldCode: either a type or a
children list is present. -/
structure EmittedField where
  key : String
  label : String
  typ : Option String
  children : List EmittedChild
  helpText : Option String
  required : Bool
  choices : Option (List String)
  default : Option String
  placeholder : Option String
  dynamic : Option String
  deriving DecidableEq

/-- generateFieldCode, child branch (lines 1353-1384). -/
def emitChildField (c : ZField) : EmittedChild :=
  { key := c.key
    label := c.label
    typ := c.typ
    helpText := if c.helpText ≠ "" then some c.helpText else none
    required := c.required
    choices :=
      match c.choices with
      | some l => if 0 < l.length then some l else none
      | none => none
    default :=
      match c.default with
      | some .null => none
      | some d => if c.typ = "string" then some (jsToString d) else none
      | none => none
    placeholder :=
      match c.placeholder with
      | some p => if p ≠ "" then some p else none
      | none => none
    dynamic :=
      match c.dynKey with
      | some k => if k ≠ "" then some k else none
      | none => none }

/-- generateFieldCode (lines 1344-1421), and the dynamic-key addition of
generateFieldCodeWithDynamic (lines 1526-1534): a field whose children
list is present and non-empty emits its children and no type; any other
field emits its type. -/
def emitField (f : ZField) : EmittedField :=
  let common := fun (typ : Option String) (children : List EmittedChild) =>
    { key := f.key
      label := f.label
      typ := typ
      children := children
      helpText := if f.helpText ≠ "" then some f.helpText else none
      required := f.required
      choices :=
        match f.choices with
        | some l => if 0 < l.length then some l else none
        | none => none
      default :=
        match f.default with
        | some .null => none
        | some d => if f.typ = "string" then some (jsToString d) else none
        | none => none
      placeholder :=
        match f.placeholder with
        | some p => if p ≠ "" then some p else none
        | none => none
      dynamic :=
        match f.dynKey with
        | some k => if k ≠ "" then some k else none
        | none => none : EmittedField }
  match f.children with
  | some (c :: cs) => common none ((c :: cs).map emitChildField)
  | _ => common (some f.typ) []

/-- The primitive Zapier field types the schema mapper produces. -/
def primitiveFieldTypes : List String :=
  ["string", "datetime", "number", "boolean"]

/-- The field-exclusivity property exactly as the claim states it: exactly
one of a primitive type or a non-empty children list. -/
def fieldExclusive (e : EmittedField) : Prop :=
  ((∃ t, e.typ = some t ∧ t ∈ primitiveFieldTypes) ∧ e.children = []) ∨
  (e.typ = none ∧ e.children ≠ [])

/-! ## Request body construction under simplify.flattenArray
(generate_zapier_from_openapi.js, lines 856-981 and 1081) -/

/-- JS v not-strictly-equal undefined and not-strictly-equal empty string:
the guard every generated field conversion starts with. -/
def definedAndNonempty (v : JVal) : Bool :=
  match v with
  | .undefined => false
  | .str "" => false
  | _ => true

/-- The generated date normalization: the part before T when the string
contains one, else the part before the first space. -/
def dateOnly (s : String) : String :=
  if strIncludes s "T" then String.mk ((splitOnCL ['T'] s.toList).headD s.toList)
  else String.mk ((splitOnCL [' '] s.toList).headD s.toList)

/-- The generated parent-field accessor (lines 880-894): the parent
object's own property, else the flattened parent__key input, else the
top-level key, else undefined. -/
def getParentField (input : List (String × JVal)) (pk k : String) : JVal :=
  let flat :=
    match input.lookup (pk ++ "__" ++ k) with
    | some v => v
    | none =>
        match input.lookup k with
        | some v => v
        | none => .undefined
  match input.lookup pk with
  | some (.obj pfs) =>
      match pfs.lookup k with
      | some v => v
      | none => flat
  | _ => flat

/-- The accessor used for each item field: the parent-field accessor when
a public grouping name is configured, bundle.inputData.key otherwise. -/
def accessField (parentKey : Option String) (input : List (String × JVal))
    (k : String) : JVal :=
  match parentKey with
  | some pk => getParentField input pk k
  | none => objGet input k

/-- The per-field value conversion of the generated request-body code
(lines 896-979): date fields keep the date part, number fields coerce
(dynamic dropdown number fields additionally drop cleared 0/null/empty
values), boolean fields coerce strings comparing lowercased text with
true, array fields parse comma-separated ids, all other fields pass the
value through; none means the field is omitted from the item. -/
def convertItemField (schemas : List (String × MSchema)) (fs : MSchema)
    (isDynamic : Bool) (v : JVal) : Option JVal :=
  let isDate := fs.typ == some "string" && fs.format == some "date"
  let isNumber := fs.typ == some "number" || fs.typ == some "integer"
  let isBoolean := fs.typ == some "boolean"
  let isArrayFld :=
    fs.typ == some "array" ||
    (match fs.ref with
     | some r => (mresolveRef schemas r).map MSchema.typ == some (some "array")
     | none => false)
  if isDate then
    if definedAndNonempty v then some (.str (dateOnly (jsToString v))) else none
  else if isNumber then
    if isDynamic then (helperIdOf v).map JVal.num
    else if definedAndNonempty v then
      match jsToNumber v with
      | some n => some (.num n)
      | none => some v
    else none
  else if isBoolean then
    if definedAndNonempty v then
      match v with
      | .bool b => some (.bool b)
      | .str s => some (.bool (lowerCL s.toList == "true".toList))
      | w => some (.bool (jsTruthy w))
    else none
  else if isArrayFld then
    if definedAndNonempty v then
      match v with
      | .str s => some (.arr ((parseIdCsv s).map JVal.num))
      | .arr xs => some (.arr xs)
      | _ => none
    else none
  else
    if definedAndNonempty v then some v else none

/-- The generated item construction (lines 864-981): each item-schema
property not hidden and not a path parameter is read through the accessor
and converted; assigned fields appear in schema order. -/
def buildSimplifiedItem (schemas : List (String × MSchema)) (fa : SimplifyFlatten)
    (hide pathParamKeys dynKeys : List String) (input : List (String × JVal)) :
    List (String × JVal) :=
  match schemas.lookup fa.itemSchema with
  | some its =>
      match its.properties with
      | some props =>
          let itemKeys := (props.map (fun kv => kv.1)).filter (fun k =>
            !(pathParamKeys.contains k) && !(hide.contains k))
          let pk := fa.publicName.map slugify
          itemKeys.filterMap (fun k =>
            match props.lookup k with
            | some fs =>
                (convertItemField schemas fs (dynKeys.contains k)
                  (accessField pk input k)).map (fun v => (k, v))
            | none => none)
      | none => []
  | none => []

/-- The generated request body under simplify.flattenArray (line 1081):
the built item wrapped in a one-element array under the configured array
field name.  The helper-field merge block (lines 982-1079) applies only
when helper fields are configured and is modeled by mergeHelperIds and
computeExistingIds; the additionalProperties block (lines 1084-1110)
appends configured extra top-level properties. -/
def buildSimplifiedRequestBody (schemas : List (String × MSchema))
    (fa : SimplifyFlatten) (hide pathParamKeys dynKeys : List String)
    (input : List (String × JVal)) : List (String × JVal) :=
  [(fa.arrayField, JVal.arr [JVal.obj (buildSimplifiedItem schemas fa hide pathParamKeys dynKeys input)])]

/-! ## Action samples and response plans
(generate_zapier_from_openapi.js, lines 738-809, 1286-1340, 1428-1463) -/

/-- The fixed 204 sentinel object. -/
def sentinel204Value : JVal :=
  .obj [("success", .bool true), ("status", .num 204)]

/-- Line 740: an endpoint is a 204-only endpoint when its responses hold
a 204 status and neither 200 nor 201. -/
def is204ResponseOf (statuses : List String) : Bool :=
  statuses.contains "204" && !(statuses.contains "200") && !(statuses.contains "201")

/-- The sensitive-looking sample keys stripped at lines 1450. -/
def sensitiveFields : List String :=
  ["password", "passwd", "pwd", "secret", "token", "apiKey", "api_key"]

/-- The sample restructuring for simplified actions with a public grouping
name (lines 750-809): when the sample holds a non-empty array under the
configured array field, its first element is filtered to the non-hidden
item-schema fields (all fields when the schema yields none), nested under
the slugified parent key, and configured additional properties are copied
from the sample or from fieldDefaults. -/
def restructureSample (schemas : List (String × MSchema)) (fa : SimplifyFlatten)
    (pn : String) (addProps : Option (List String))
    (fieldDefaults : List (String × JVal)) (hide : List String)
    (sample : JVal) : JVal :=
  match sample with
  | .obj fs =>
      match objGet fs fa.arrayField with
      | .arr (first :: _) =>
          let allowed : List String :=
            match schemas.lookup fa.itemSchema with
            | some its =>
                match its.properties with
                | some props => (props.map (fun kv => kv.1)).filter (fun k => !(hide.contains k))
                | none => []
            | none => []
          let itemFields :=
            match first with
            | .obj ifs => ifs
            | _ => []
          let filteredItem :=
            if 0 < allowed.length then itemFields.filter (fun kv => allowed.contains kv.1)
            else itemFields
          let base := [(slugify pn, JVal.obj filteredItem)]
          let withAdd :=
            match addProps with
            | some ps =>
                base ++ ps.filterMap (fun p =>
                  match fs.lookup p with
                  | some v => some (p, v)
                  | none =>
                      match fieldDefaults.lookup p with
                      | some d => some (p, d)
                      | none => none)
            | none => base
          .obj withAdd
      | _ => sample
  | _ => sample

/-- The sample normalization of lines 1428-1463: arrays contribute their
first element, truthy primitives are wrapped under a value key, falsy or
missing samples become the empty object; sensitive and hidden keys are
stripped; an empty object becomes the id 0 placeholder. -/
def cleanupActionSample (hide : List String) (sample : Option JVal) : JVal :=
  let sampleObject : JVal :=
    match sample with
    | none => .obj []
    | some v =>
        if jsTruthy v then
          match v with
          | .arr [] => .obj []
          | .arr (x :: _) => x
          | .obj fs => .obj fs
          | w => .obj [("value", w)]
        else .obj []
  let cleaned :=
    match sampleObject with
    | .obj fs => JVal.obj (fs.filter (fun kv => !((sensitiveFields ++ hide).contains kv.1)))
    | w => w
  match cleaned with
  | .obj [] => .obj [("id", .num 0)]
  | w => w

/-- The action sample pipeline (lines 738-809 then 1428-1463): the
extracted sample of the first available success response (the extraction
result is a parameter; it is discarded for 204-only endpoints), the 204
sentinel override, the simplify restructuring, and the final
normalization. -/
def actionSample (statuses : List String) (extracted : Option JVal)
    (schemas : List (String × MSchema)) (cfg : Option SimplifyCfg)
    (fieldDefaults : List (String × JVal)) (hide : List String) : JVal :=
  let hasSuccess := statuses.contains "200" || statuses.contains "201" || statuses.contains "204"
  let sample0 := if hasSuccess then extracted else none
  let sample1 := if is204ResponseOf statuses then some sentinel204Value else sample0
  let sample2 :=
    match cfg with
    | some c =>
        if c.enabled then
          match c.flattenArray with
          | some fa =>
              match fa.publicName with
              | some pn =>
                  match sample1 with
                  | some sv =>
                      if jsTruthy sv then
                        some (restructureSample schemas fa pn c.additionalProperties fieldDefaults hide sv)
                      else sample1
                  | none => sample1
              | none => sample1
          | none => sample1
        else sample1
    | none => sample1
  cleanupActionSample hide sample2

/-- The response handling plan an action descriptor carries
(lines 1286-1340). -/
inductive ResponsePlan where
  | sentinel204
  | wrapArray (arrayKey : String)
  | extractSingle (arrayProperty : String)
  | passthrough
  | wrapData
  deriving DecidableEq

/-- Lines 1286-1340: 204-only endpoints get the fixed sentinel plan;
direct array responses are wrapped under the pluralized noun; object
responses with an array property are passed through, or have a single
item extracted when simplify.responseExtraction.extractSingle is set;
unknown shapes fall back to the generic data wrap. -/
def actionResponsePlan (statuses : List String) (successSchema : Option MSchema)
    (schemas : List (String × MSchema)) (noun : String)
    (cfg : Option SimplifyCfg) : ResponsePlan :=
  if is204ResponseOf statuses then .sentinel204
  else
    match successSchema with
    | some s =>
        if s.typ = some "array" then .wrapArray (String.mk (lowerCL noun.toList) ++ "s")
        else if s.typ = some "object" then
          let schemaToCheck :=
            match s.ref with
            | some r => (mresolveRef schemas r).getD s
            | none => s
          match getArrayPropertyName (schemas.length + 1) schemas (some schemaToCheck) with
          | some arrayProp =>
              match cfg with
              | some c =>
                  if c.enabled then
                    match c.responseExtraction with
                    | some re =>
                        if re.extractSingle then
                          .extractSingle (re.arrayProperty.getD arrayProp)
                        else .passthrough
                    | none => .passthrough
                  else .passthrough
              | none => .passthrough
          | none => .passthrough
        else .passthrough
    | none => .wrapData

/-- Whether executing a plan reads the response body. -/
def ResponsePlan.readsBody : ResponsePlan → Bool
  | .sentinel204 => false
  | _ => true

/-- Executing a response plan on a response body. -/
def runResponsePlan : ResponsePlan → JVal → JVal
  | .sentinel204, _ => sentinel204Value
  | .wrapArray k, body =>
      match body with
      | .arr xs => .obj [(k, .arr xs)]
      | w => w
  | .extractSingle p, body =>
      match body with
      | .obj fs =>
          match objGet fs p with
          | .arr (x :: _) => x
          | _ => body
      | _ => body
  | .passthrough, body => body
  | .wrapData, body =>
      match body with
      | .arr xs => .obj [("data", .arr xs)]
      | w => w

/-! ## Concrete instances used by witnesses and counterexamples -/

/-- A component schema that is nothing but a reference to itself. -/
def cycNode : ONode :=
  ONode.refNode "#/components/schemas/A"

/-- A document whose schemas registry maps A to a self-referential node. -/
def cycDoc : List (String × ONode) :=
  [("A", cycNode)]

/-- A plain string schema. -/
def strSchema : MSchema :=
  .mk none (some "string") none none none none none none none

/-- A plain number schema. -/
def numSchema : MSchema :=
  .mk none (some "number") none none none none none none none

/-- The item schema of the flatten round-trip: fields a (string) and
b (number). -/
def itemSchemaAB : MSchema :=
  .mk none (some "object") none none none none
    (some [("a", strSchema), ("b", numSchema)]) none none

/-- The array-of-items schema of the round-trip request body. -/
def arrSchemaAB : MSchema :=
  .mk none (some "array") none none none none none (some itemSchemaAB) none

/-- The request body schema: one array-typed property named items. -/
def rbSchemaAB : MSchema :=
  .mk none (some "object") none none none none
    (some [("items", arrSchemaAB)]) none none

/-- The component registry holding the item schema under the name Item. -/
def schemasAB : List (String × MSchema) :=
  [("Item", itemSchemaAB)]

/-- simplify.flattenArray with arrayField items and no public name. -/
def faFlat : SimplifyFlatten :=
  ⟨"items", "Item", none⟩

/-- simplify.flattenArray with public grouping name Group. -/
def faGroup : SimplifyFlatten :=
  ⟨"items", "Item", some "Group"⟩

/-- The simplify configuration for the flat mode. -/
def cfgFlat : SimplifyCfg :=
  ⟨true, some faFlat, none, none⟩

/-- The simplify configuration for the grouped mode. -/
def cfgGroup : SimplifyCfg :=
  ⟨true, some faGroup, none, none⟩

/-- The grouping parent field left childless when every item property is
hidden by configuration. -/
def childlessParentField : ZField :=
  ZField.mk "group" "Group" "object" "" true none none none (some []) none

/-! # Theorems -/

/-! ## C1: schema resolution on cyclic references -/

/-- Any schema node that resolves back to itself through resolveRef makes
resolveSchema exhaust every recursion budget: the source has no visited
set, so the chain is re-entered at every step. -/
theorem resolveSchema_cycle_exhausts (doc : List (String × ONode)) (r : String)
    (s : ONode) (h1 : s.ref = some r) (h2 : resolveRef doc r = some s) :
    ∀ fuel, resolveSchema fuel doc (some s) = none := by
  intro fuel
  induction fuel with
  | zero => simp [resolveSchema]
  | succ n ih =>
      simp only [resolveSchema, h1, h2]
      exact ih

/-- C1, corrected.  resolveSchema performs no cycle detection: a node
whose resolution chain revisits itself through resolveRef is re-expanded
at every step, so for every recursion budget the resolution exhausts the
budget instead of terminating with a stable canonical node. -/
theorem c1_cyclic_ref_resolution_diverges (doc : List (String × ONode))
    (r : String) (s : ONode) (h1 : s.ref = some r)
    (h2 : resolveRef doc r = some s) :
    ∀ fuel, resolveSchema fuel doc (some s) = none :=
  resolveSchema_cycle_exhausts doc r s h1 h2

/-- C1 witness: the divergence theorem applied to the concrete
self-referential document at recursion budget 5. -/
theorem c1_cyclic_ref_resolution_diverges_witness :
    resolveSchema 5 cycDoc (some cycNode) = none :=
  c1_cyclic_ref_resolution_diverges cycDoc "#/components/schemas/A" cycNode rfl rfl 5

/-- C1 counterexample: at the concrete cyclic document the claimed
termination fails: no recursion budget makes resolveSchema of the
self-referential node return a result. -/
theorem c1_counterexample :
    ¬ ∃ fuel res, resolveSchema fuel cycDoc (some cycNode) = some res := by
  rintro ⟨fuel, res, h⟩
  rw [resolveSchema_cycle_exhausts cycDoc "#/components/schemas/A" cycNode rfl rfl fuel] at h
  exact Option.noConfusion h

/-! ## C2: the pagination loop -/

/-- The loop records at least one request on a non-empty response
sequence. -/
theorem paginate_requests_ne_nil {α : Type} (limit off : Nat) (p : Page α)
    (rest : List (Page α)) : (paginate limit off (p :: rest)).2 ≠ [] := by
  simp only [paginate]
  split <;> simp

/-- The offsets requested by the loop form the arithmetic progression
off, off + limit, off + 2 * limit, ... -/
theorem paginate_offsets {α : Type} (limit : Nat) :
    ∀ (pages : List (Page α)) (off : Nat),
      (paginate limit off pages).2 =
        (List.range (paginate limit off pages).2.length).map (fun i => off + limit * i) := by
  intro pages
  induction pages with
  | nil => intro off; simp [paginate]
  | cons p rest ih =>
      intro off
      cases hc : p.hasMore && p.items.length == limit with
      | false =>
          have hr1 : List.range 1 = [0] := rfl
          simp [paginate, hc, hr1]
      | true =>
          have hstep : (paginate limit off (p :: rest)).2 =
              off :: (paginate limit (off + limit) rest).2 := by
            simp [paginate, hc]
          rw [hstep, ih (off + limit)]
          generalize (paginate limit (off + limit) rest).2.length = k
          rw [List.length_cons, List.length_map, List.length_range,
            List.range_succ_eq_map, List.map_cons, List.map_map]
          congr 1
          simp only [List.map_inj_left, Function.comp_apply, List.mem_range,
            Nat.succ_eq_add_one, Nat.mul_add, Nat.mul_one]
          intro i _
          omega

/-- The loop stops right after a page exactly when the server did not
report more pages or the page was not exactly full. -/
theorem paginate_stop_iff {α : Type} (limit off : Nat) (p q : Page α)
    (rest : List (Page α)) :
    (paginate limit off (p :: q :: rest)).2 = [off] ↔
      ¬(p.hasMore = true ∧ p.items.length = limit) := by
  cases hc : p.hasMore && p.items.length == limit with
  | true =>
      have hstep : (paginate limit off (p :: q :: rest)).2 =
          off :: (paginate limit (off + limit) (q :: rest)).2 := by
        simp [paginate, hc]
      rw [hstep]
      constructor
      · intro habs
        exfalso
        have hne := paginate_requests_ne_nil limit (off + limit) q rest
        have : (paginate limit (off + limit) (q :: rest)).2 = [] := by
          injection habs
        exact hne this
      · intro hn
        exfalso
        apply hn
        simpa [Bool.and_eq_true, beq_iff_eq] using hc
  | false =>
      have hstep : (paginate limit off (p :: q :: rest)).2 = [off] := by
        simp [paginate, hc]
      rw [hstep]
      simp only [true_iff]
      intro hcl
      rw [hcl.1] at hc
      simp only [Bool.true_and] at hc
      rw [hcl.2] at hc
      simp at hc

/-- The accumulated items are exactly the concatenated items of the pages
the loop consumed (one page per recorded request). -/
theorem paginate_items {α : Type} (limit : Nat) :
    ∀ (pages : List (Page α)) (off : Nat),
      (paginate limit off pages).1 =
        ((pages.take (paginate limit off pages).2.length).map Page.items).flatten := by
  intro pages
  induction pages with
  | nil => intro off; simp [paginate]
  | cons p rest ih =>
      intro off
      cases hc : p.hasMore && p.items.length == limit with
      | false => simp [paginate, hc]
      | true =>
          have hstep : paginate limit off (p :: rest) =
              (p.items ++ (paginate limit (off + limit) rest).1,
               off :: (paginate limit (off + limit) rest).2) := by
            simp [paginate, hc]
          rw [hstep]
          simp only [List.length_cons, List.take_succ_cons, List.map_cons,
            List.flatten_cons]
          rw [ih (off + limit)]

/-- C2, corrected.  The generated fetch loop advances the offset by the
requested limit on every further request (the offsets form the
progression 0, limit, 2 * limit, ...), accumulates exactly the pages it
consumed, and on the concrete example (limit 2, pages of sizes 2, 2, 1
with has_more true, true, false) makes exactly 3 requests at offsets
0, 2, 4 and returns all 5 items.  Its stop condition, however, is a
disjunction: it stops right after a page exactly when the server reports
no more pages OR the page was not exactly the requested limit — not only
when no-more-pages and a short page hold together. -/
theorem c2_pagination_contract :
    (paginate (α := Nat) 2 0 [⟨[1, 2], true⟩, ⟨[3, 4], true⟩, ⟨[5], false⟩]
        = ([1, 2, 3, 4, 5], [0, 2, 4]))
    ∧ (∀ (α : Type) (limit off : Nat) (pages : List (Page α)),
        (paginate limit off pages).2 =
          (List.range (paginate limit off pages).2.length).map (fun i => off + limit * i))
    ∧ (∀ (α : Type) (limit off : Nat) (p q : Page α) (rest : List (Page α)),
        (paginate limit off (p :: q :: rest)).2 = [off] ↔
          ¬(p.hasMore = true ∧ p.items.length = limit))
    ∧ (∀ (α : Type) (limit off : Nat) (pages : List (Page α)),
        (paginate limit off pages).1 =
          ((pages.take (paginate limit off pages).2.length).map Page.items).flatten) :=
  ⟨rfl,
   fun _ limit off pages => paginate_offsets limit pages off,
   fun _ limit off p q rest => paginate_stop_iff limit off p q rest,
   fun _ limit off pages => paginate_items limit pages off⟩

/-- C2 counterexample: with limit 2, a first page of one item carrying
has_more true, the loop stops after its single request at offset 0 even
though the server reported more pages — refuting the claim that it stops
only when the server reports no more pages AND the page was short. -/
theorem c2_counterexample :
    ¬ ∀ (limit : Nat) (p q : Page Nat),
        (paginate limit 0 [p, q]).2 = [0] →
          p.hasMore = false ∧ p.items.length < limit := by
  intro h
  have hx := h 2 ⟨[9], true⟩ ⟨[], false⟩ rfl
  exact absurd hx.1 (by decide)

/-! ## C3: helper-field merge into array-typed targets -/

theorem contains_iff_mem {α : Type} [BEq α] [LawfulBEq α] (l : List α) (a : α) :
    l.contains a = true ↔ a ∈ l :=
  List.elem_iff

theorem contains_eq_false_of_not_mem {α : Type} [BEq α] [LawfulBEq α]
    {l : List α} {a : α} (h : a ∉ l) : l.contains a = false := by
  cases hc : l.contains a with
  | false => rfl
  | true => exact absurd ((contains_iff_mem l a).mp hc) h

theorem dedupAux_cons_true {seen : List Int} {y : Int} (ys : List Int)
    (h : seen.contains y = true) :
    jsSetDedupAux seen (y :: ys) = jsSetDedupAux seen ys := by
  simp only [jsSetDedupAux, h, if_true]

theorem dedupAux_cons_false {seen : List Int} {y : Int} (ys : List Int)
    (h : seen.contains y = false) :
    jsSetDedupAux seen (y :: ys) = y :: jsSetDedupAux (y :: seen) ys := by
  simp only [jsSetDedupAux, h, Bool.false_eq_true, if_false]

theorem mem_jsSetDedupAux : ∀ (l seen : List Int) (x : Int),
    x ∈ jsSetDedupAux seen l ↔ x ∈ l ∧ x ∉ seen := by
  intro l
  induction l with
  | nil => intro seen x; simp [jsSetDedupAux]
  | cons y ys ih =>
      intro seen x
      cases hy : seen.contains y with
      | true =>
          have hy2 : y ∈ seen := (contains_iff_mem seen y).mp hy
          rw [dedupAux_cons_true ys hy, ih, List.mem_cons]
          constructor
          · rintro ⟨h1, h2⟩; exact ⟨Or.inr h1, h2⟩
          · rintro ⟨h1 | h1, h2⟩
            · exact absurd (h1 ▸ hy2) h2
            · exact ⟨h1, h2⟩
      | false =>
          have hy2 : y ∉ seen := fun hmem => by
            rw [(contains_iff_mem seen y).mpr hmem] at hy
            exact Bool.noConfusion hy
          rw [dedupAux_cons_false ys hy, List.mem_cons, List.mem_cons, ih]
          constructor
          · rintro (rfl | ⟨h1, h2⟩)
            · exact ⟨Or.inl rfl, hy2⟩
            · exact ⟨Or.inr h1, fun hm2 => h2 (List.mem_cons_of_mem _ hm2)⟩
          · rintro ⟨hxy | h1, h2⟩
            · exact Or.inl hxy
            · by_cases hxy2 : x = y
              · exact Or.inl hxy2
              · refine Or.inr ⟨h1, fun hc => ?_⟩
                rcases List.mem_cons.mp hc with h | h
                · exact hxy2 h
                · exact h2 h

theorem nodup_jsSetDedupAux : ∀ (l seen : List Int), (jsSetDedupAux seen l).Nodup := by
  intro l
  induction l with
  | nil => intro seen; simp [jsSetDedupAux]
  | cons y ys ih =>
      intro seen
      cases hy : seen.contains y with
      | true => rw [dedupAux_cons_true ys hy]; exact ih seen
      | false =>
          rw [dedupAux_cons_false ys hy, List.nodup_cons]
          refine ⟨fun hmem => ?_, ih (y :: seen)⟩
          have := (mem_jsSetDedupAux ys (y :: seen) y).mp hmem
          exact this.2 (List.mem_cons_self _ _)

theorem jsSetDedupAux_congr : ∀ (l s1 s2 : List Int),
    (∀ x, x ∈ s1 ↔ x ∈ s2) → jsSetDedupAux s1 l = jsSetDedupAux s2 l := by
  intro l
  induction l with
  | nil => intro s1 s2 _; rfl
  | cons y ys ih =>
      intro s1 s2 hs
      cases h2 : s2.contains y with
      | true =>
          have h1 : s1.contains y = true :=
            (contains_iff_mem s1 y).mpr ((hs y).mpr ((contains_iff_mem s2 y).mp h2))
          rw [dedupAux_cons_true ys h1, dedupAux_cons_true ys h2]
          exact ih s1 s2 hs
      | false =>
          have h1 : s1.contains y = false := by
            cases hc1 : s1.contains y with
            | false => rfl
            | true =>
                rw [(contains_iff_mem s2 y).mpr ((hs y).mp ((contains_iff_mem s1 y).mp hc1))] at h2
                exact Bool.noConfusion h2
          rw [dedupAux_cons_false ys h1, dedupAux_cons_false ys h2]
          refine congrArg (List.cons y) (ih _ _ ?_)
          intro x
          rw [List.mem_cons, List.mem_cons]
          exact or_congr Iff.rfl (hs x)

theorem jsSetDedupAux_append : ∀ (a : List Int) (seen b : List Int),
    jsSetDedupAux seen (a ++ b) =
      jsSetDedupAux seen a ++ jsSetDedupAux (a ++ seen) b := by
  intro a
  induction a with
  | nil => intro seen b; simp [jsSetDedupAux]
  | cons y ys ih =>
      intro seen b
      rw [List.cons_append]
      cases hy : seen.contains y with
      | true =>
          rw [dedupAux_cons_true (ys ++ b) hy, dedupAux_cons_true ys hy, ih seen b]
          refine congrArg _ (jsSetDedupAux_congr b _ _ ?_)
          intro x
          have hy2 : y ∈ seen := (contains_iff_mem seen y).mp hy
          simp only [List.mem_cons, List.mem_append]
          constructor
          · tauto
          · rintro ((rfl | h) | h)
            · exact Or.inr hy2
            · exact Or.inl h
            · exact Or.inr h
      | false =>
          rw [dedupAux_cons_false (ys ++ b) hy, dedupAux_cons_false ys hy, ih (y :: seen) b]
          refine congrArg _ (congrArg _ (jsSetDedupAux_congr b _ _ ?_))
          intro x
          simp only [List.mem_cons, List.mem_append]
          tauto

theorem jsSetDedupAux_eq_self : ∀ (l seen : List Int), l.Nodup →
    (∀ x ∈ l, x ∉ seen) → jsSetDedupAux seen l = l := by
  intro l
  induction l with
  | nil => intro seen _ _; rfl
  | cons y ys ih =>
      intro seen hnd hdisj
      have hy : seen.contains y = false := by
        cases hc : seen.contains y with
        | false => rfl
        | true =>
            exact absurd ((contains_iff_mem seen y).mp hc)
              (hdisj y (List.mem_cons_self _ _))
      rw [dedupAux_cons_false ys hy]
      refine congrArg (List.cons y) (ih (y :: seen) (List.nodup_cons.mp hnd).2 ?_)
      intro x hx hmem
      rcases List.mem_cons.mp hmem with rfl | hmem2
      · exact (List.nodup_cons.mp hnd).1 hx
      · exact hdisj x (List.mem_cons_of_mem _ hx) hmem2

theorem mem_jsSetDedup (l : List Int) (x : Int) : x ∈ jsSetDedup l ↔ x ∈ l := by
  unfold jsSetDedup
  rw [mem_jsSetDedupAux]
  simp

theorem jsSetDedup_append (a b : List Int) :
    jsSetDedup (a ++ b) = jsSetDedup a ++ jsSetDedupAux a b := by
  unfold jsSetDedup
  rw [jsSetDedupAux_append a [] b, List.append_nil]

/-- Inversion of a successful merge: the result is the deduplicated union
filtered to positive ids, and it is non-empty. -/
theorem mergeHelperIds_inv (e : List Int) (vs : List JVal) (m : List Int)
    (hm : mergeHelperIds e vs = some m) :
    m = (jsSetDedup (e ++ helperIds vs)).filter (fun i => decide (0 < i)) ∧
      0 < m.length := by
  simp only [mergeHelperIds] at hm
  split at hm
  · exact ⟨(Option.some_inj.mp hm).symm, by
      rw [← Option.some_inj.mp hm]; assumption⟩
  · exact Option.noConfusion hm

/-- C3, confirmed.  Merging helper values into an array-typed target
coerces to numbers and drops undefined, null, empty and zero values
(helperIds), deduplicates in first-occurrence order and unions with the
pre-existing ids, existing first (the decomposition conjunct), keeps only
positive ids with no duplicates, omits the target entirely when the merge
is empty, yields [5, 7, 3] for helper values [3, 5, 5, 0, null] merged
into existing [5, 7], and merging its own result again with the same
inputs is a fixed point (idempotent). -/
theorem c3_helper_merge :
    (mergeHelperIds [5, 7] [.num 3, .num 5, .num 5, .num 0, .null] = some [5, 7, 3])
    ∧ (∀ (e : List Int) (vs : List JVal) (m : List Int),
        mergeHelperIds e vs = some m → mergeHelperIds m vs = some m)
    ∧ (∀ (e : List Int) (vs : List JVal) (m : List Int),
        mergeHelperIds e vs = some m → m.Nodup ∧ ∀ x ∈ m, 0 < x)
    ∧ (∀ (e : List Int) (vs : List JVal) (m : List Int),
        mergeHelperIds e vs = some m →
          ∃ newPart, m = (jsSetDedup e).filter (fun i => decide (0 < i)) ++ newPart ∧
            ∀ x ∈ newPart, x ∈ helperIds vs)
    ∧ (∀ (e : List Int) (vs : List JVal),
        mergeHelperIds e vs = none ↔
          (jsSetDedup (e ++ helperIds vs)).filter (fun i => decide (0 < i)) = []) := by
  have hnodpos : ∀ (e : List Int) (vs : List JVal) (m : List Int),
      mergeHelperIds e vs = some m → m.Nodup ∧ ∀ x ∈ m, 0 < x := by
    intro e vs m hm
    obtain ⟨hm1, _⟩ := mergeHelperIds_inv e vs m hm
    subst hm1
    refine ⟨List.Nodup.filter _ (nodup_jsSetDedupAux _ _), ?_⟩
    intro x hx
    have := (List.mem_filter.mp hx).2
    simpa using this
  refine ⟨rfl, ?_, hnodpos, ?_, ?_⟩
  · -- idempotence
    intro e vs m hm
    obtain ⟨hm1, hm2⟩ := mergeHelperIds_inv e vs m hm
    obtain ⟨hnd, hpos⟩ := hnodpos e vs m hm
    have hmfilter : m.filter (fun i => decide (0 < i)) = m := by
      rw [List.filter_eq_self]
      intro a ha
      simpa using hpos a ha
    have hdedup_m : jsSetDedup m = m := by
      unfold jsSetDedup
      exact jsSetDedupAux_eq_self m [] hnd (by simp)
    have hnew_nil : (jsSetDedupAux m (helperIds vs)).filter (fun i => decide (0 < i)) = [] := by
      rw [List.filter_eq_nil_iff]
      intro a ha hpa
      have hmem := (mem_jsSetDedupAux (helperIds vs) m a).mp ha
      apply hmem.2
      rw [hm1]
      apply List.mem_filter.mpr
      refine ⟨(mem_jsSetDedup _ _).mpr (List.mem_append.mpr (Or.inr hmem.1)), hpa⟩
    have hmerged2 : (jsSetDedup (m ++ helperIds vs)).filter (fun i => decide (0 < i)) = m := by
      rw [jsSetDedup_append, List.filter_append, hdedup_m, hmfilter, hnew_nil,
        List.append_nil]
    simp only [mergeHelperIds, hmerged2, hm2, if_true]
  · -- existing-first decomposition
    intro e vs m hm
    obtain ⟨hm1, _⟩ := mergeHelperIds_inv e vs m hm
    refine ⟨(jsSetDedupAux e (helperIds vs)).filter (fun i => decide (0 < i)), ?_, ?_⟩
    · rw [hm1, jsSetDedup_append, List.filter_append]
    · intro x hx
      exact ((mem_jsSetDedupAux (helperIds vs) e x).mp (List.mem_filter.mp hx).1).1
  · -- omission exactly when the filtered union is empty
    intro e vs
    simp only [mergeHelperIds]
    constructor
    · intro hnone
      split at hnone
      · exact Option.noConfusion hnone
      · next hlen =>
          cases hfe : (jsSetDedup (e ++ helperIds vs)).filter (fun i => decide (0 < i)) with
          | nil => rfl
          | cons z zs => rw [hfe] at hlen; simp at hlen
    · intro hnil
      rw [hnil]
      simp

/-- C3 witness: the idempotence conjunct applied at the concrete inputs of
the claim, discharging its hypothesis with the concrete-merge conjunct:
re-merging [5, 7, 3] with the same helper values returns [5, 7, 3]. -/
theorem c3_helper_merge_witness :
    mergeHelperIds [5, 7, 3] [.num 3, .num 5, .num 5, .num 0, .null] = some [5, 7, 3] :=
  c3_helper_merge.2.1 [5, 7] [.num 3, .num 5, .num 5, .num 0, .null] [5, 7, 3]
    c3_helper_merge.1

/-! ## C4: fatal configuration validation -/

theorem mem_invalid_filter {l keys : List String} {k : String}
    (hk : k ∈ keys) (hnk : k ∉ l) :
    k ∈ keys.filter (fun p => !(l.contains p)) := by
  rw [List.mem_filter]
  exact ⟨hk, by rw [contains_eq_false_of_not_mem hnk]; rfl⟩

theorem checkAdditionalProperties_invalid (opId : String)
    (props addProps : List String) (k : String)
    (hk : k ∈ addProps) (hnk : k ∉ props) :
    checkAdditionalProperties opId (some props) addProps
        = .error (.invalidAdditionalProps opId
            (addProps.filter (fun p => !(props.contains p)))) := by
  have hkf := mem_invalid_filter hk hnk
  have hlen : 0 < (addProps.filter (fun p => !(props.contains p))).length :=
    List.length_pos.mpr (List.ne_nil_of_mem hkf)
  simp only [checkAdditionalProperties, hlen, if_true]

theorem checkFieldDefaults_invalid (opId : String)
    (inputKeys dk : List String) (k : String)
    (hk : k ∈ dk) (hnk : k ∉ inputKeys) :
    checkFieldDefaults opId inputKeys dk
        = .error (.invalidFieldDefaults opId
            (dk.filter (fun p => !(inputKeys.contains p)))) := by
  have hkf := mem_invalid_filter hk hnk
  have hlen : 0 < (dk.filter (fun p => !(inputKeys.contains p))).length :=
    List.length_pos.mpr (List.ne_nil_of_mem hkf)
  simp only [checkFieldDefaults, hlen, if_true]

theorem checkAdditionalProperties_ok (opId : String)
    (props addProps : List String) (hall : ∀ p ∈ addProps, p ∈ props) :
    checkAdditionalProperties opId (some props) addProps = .ok () := by
  have hnil : addProps.filter (fun p => !(props.contains p)) = [] := by
    rw [List.filter_eq_nil_iff]
    intro a ha
    rw [(contains_iff_mem props a).mpr (hall a ha)]
    simp
  simp only [checkAdditionalProperties, hnil]
  simp

theorem checkFieldDefaults_ok (opId : String)
    (inputKeys dk : List String) (hall : ∀ p ∈ dk, p ∈ inputKeys) :
    checkFieldDefaults opId inputKeys dk = .ok () := by
  have hnil : dk.filter (fun p => !(inputKeys.contains p)) = [] := by
    rw [List.filter_eq_nil_iff]
    intro a ha
    rw [(contains_iff_mem inputKeys a).mpr (hall a ha)]
    simp
  simp only [checkFieldDefaults, hnil]
  simp

/-- C4, confirmed.  A simplify.additionalProperties entry naming a
property absent from the request-body schema makes the generation gate
stop with the fatal invalidAdditionalProps error carrying the operation
id and exactly the offending keys; a fieldDefaults entry naming a field
absent from the computed input fields (once the additionalProperties
check has passed) stops it with the fatal invalidFieldDefaults error
carrying the operation id and the offending keys; both error messages
spell out the operation id; and when every configured name exists the
gate returns the descriptor (the computed input field keys) with no
error. -/
theorem c4_config_validation :
    (∀ (opId : String) (props addProps inputKeys : List String)
        (dOpt : Option (List String)) (k : String),
        k ∈ addProps → k ∉ props →
          actionConfigGate opId (some addProps) (some props) inputKeys dOpt
              = .error (.invalidAdditionalProps opId
                  (addProps.filter (fun p => !(props.contains p))))
            ∧ k ∈ addProps.filter (fun p => !(props.contains p))
            ∧ ∃ pre post,
                (GenError.invalidAdditionalProps opId
                  (addProps.filter (fun p => !(props.contains p)))).message
                  = pre ++ (opId ++ post))
    ∧ (∀ (opId : String) (addOpt : Option (List String))
        (bodyProps : Option (List String)) (inputKeys dk : List String) (k : String),
        (match addOpt with
         | some a => checkAdditionalProperties opId bodyProps a
         | none => Except.ok ()) = .ok () →
        k ∈ dk → k ∉ inputKeys →
          actionConfigGate opId addOpt bodyProps inputKeys (some dk)
              = .error (.invalidFieldDefaults opId
                  (dk.filter (fun p => !(inputKeys.contains p))))
            ∧ k ∈ dk.filter (fun p => !(inputKeys.contains p))
            ∧ ∃ pre post,
                (GenError.invalidFieldDefaults opId
                  (dk.filter (fun p => !(inputKeys.contains p)))).message
                  = pre ++ (opId ++ post))
    ∧ (∀ (opId : String) (addOpt : Option (List String))
        (bodyProps : Option (List String)) (inputKeys : List String)
        (dOpt : Option (List String)),
        (∀ a, addOpt = some a → ∃ props, bodyProps = some props ∧ ∀ p ∈ a, p ∈ props) →
        (∀ dk, dOpt = some dk → ∀ p ∈ dk, p ∈ inputKeys) →
          actionConfigGate opId addOpt bodyProps inputKeys dOpt = .ok inputKeys) := by
  refine ⟨?_, ?_, ?_⟩
  · intro opId props addProps inputKeys dOpt k hk hnk
    refine ⟨?_, mem_invalid_filter hk hnk,
      ⟨"Action \"",
       "\": The following properties in simplify.additionalProperties do not exist in the request body schema: " ++
         String.intercalate ", " (addProps.filter (fun p => !(props.contains p))), rfl⟩⟩
    simp only [actionConfigGate, checkAdditionalProperties_invalid opId props addProps k hk hnk]
    rfl
  · intro opId addOpt bodyProps inputKeys dk k hadd hk hnk
    refine ⟨?_, mem_invalid_filter hk hnk,
      ⟨"Action \"",
       "\": The following properties in fieldDefaults do not exist in the input fields: " ++
         String.intercalate ", " (dk.filter (fun p => !(inputKeys.contains p))), rfl⟩⟩
    simp only [actionConfigGate]
    rw [hadd]
    simp only [checkFieldDefaults_invalid opId inputKeys dk k hk hnk]
    rfl
  · intro opId addOpt bodyProps inputKeys dOpt hadd hdef
    have h1 : (match addOpt with
        | some a => checkAdditionalProperties opId bodyProps a
        | none => Except.ok ()) = .ok () := by
      cases addOpt with
      | none => rfl
      | some a =>
          obtain ⟨props, hbp, hall⟩ := hadd a rfl
          rw [hbp]
          exact checkAdditionalProperties_ok opId props a hall
    have h2 : (match dOpt with
        | some dk => checkFieldDefaults opId inputKeys dk
        | none => Except.ok ()) = .ok () := by
      cases dOpt with
      | none => rfl
      | some dk => exact checkFieldDefaults_ok opId inputKeys dk (hdef dk rfl)
    simp only [actionConfigGate, h1, h2]
    rfl

/-- C4 witness: the three gate conjuncts applied at concrete
configurations — an invalid additionalProperties entry, an invalid
fieldDefaults entry, and a fully valid configuration. -/
theorem c4_config_validation_witness :
    actionConfigGate "createTx" (some ["nope"]) (some ["items"]) ["a"] none
        = .error (.invalidAdditionalProps "createTx" ["nope"])
    ∧ actionConfigGate "createTx" (some ["items"]) (some ["items"]) ["a", "b"] (some ["zz"])
        = .error (.invalidFieldDefaults "createTx" ["zz"])
    ∧ actionConfigGate "createTx" (some ["items"]) (some ["items"]) ["a"] (some ["a"])
        = .ok ["a"] := by
  refine ⟨?_, ?_, ?_⟩
  · exact (c4_config_validation.1 "createTx" ["items"] ["nope"] ["a"] none "nope"
      (by decide) (by decide)).1
  · exact (c4_config_validation.2.1 "createTx" (some ["items"]) (some ["items"])
      ["a", "b"] ["zz"] "zz" (by rfl) (by decide) (by decide)).1
  · exact c4_config_validation.2.2 "createTx" (some ["items"]) (some ["items"]) ["a"]
      (some ["a"])
      (fun a ha => ⟨["items"], rfl, by
        intro p hp
        rw [← Option.some_inj.mp ha] at hp
        exact hp⟩)
      (fun dk hdk => by
        intro p hp
        rw [← Option.some_inj.mp hdk] at hp
        exact hp)

/-! ## C5: the 204 No Content contract -/

/-- The simplify restructuring never touches the 204 sentinel: no sample
key of the sentinel holds an array, so the guard fails for every
configured array field name. -/
theorem restructureSample_sentinel (schemas : List (String × MSchema))
    (fa : SimplifyFlatten) (pn : String) (addProps : Option (List String))
    (fieldDefaults : List (String × JVal)) (hide : List String) :
    restructureSample schemas fa pn addProps fieldDefaults hide sentinel204Value
      = sentinel204Value := by
  by_cases h1 : fa.arrayField = "success"
  · simp [restructureSample, sentinel204Value, objGet, List.lookup, h1]
  · by_cases h2 : fa.arrayField = "status"
    · simp [restructureSample, sentinel204Value, objGet, List.lookup, h1, h2]
    · have hb1 : (fa.arrayField == "success") = false := beq_eq_false_iff_ne.mpr h1
      have hb2 : (fa.arrayField == "status") = false := beq_eq_false_iff_ne.mpr h2
      simp [restructureSample, sentinel204Value, objGet, List.lookup, hb1, hb2]

/-- The final sample normalization keeps the sentinel intact when neither
of its two keys is hidden. -/
theorem cleanupActionSample_sentinel (hide : List String)
    (h1 : "success" ∉ hide) (h2 : "status" ∉ hide) :
    cleanupActionSample hide (some sentinel204Value) = sentinel204Value := by
  have hc1 : ((sensitiveFields ++ hide).contains "success") = false := by
    apply contains_eq_false_of_not_mem
    intro hmem
    rcases List.mem_append.mp hmem with h | h
    · simp [sensitiveFields] at h
    · exact h1 h
  have hc2 : ((sensitiveFields ++ hide).contains "status") = false := by
    apply contains_eq_false_of_not_mem
    intro hmem
    rcases List.mem_append.mp hmem with h | h
    · simp [sensitiveFields] at h
    · exact h2 h
  simp [cleanupActionSample, sentinel204Value, jsTruthy, List.filter, sensitiveFields,
    h1, h2]

/-- C5, confirmed.  For every endpoint whose responses hold a 204 status
and neither 200 nor 201 — whatever its path, method, extracted sample,
schemas or simplify configuration, as long as the hidden-property set
does not name the sentinel keys — the generated action's sample is the
fixed sentinel (success true, status 204) and its response plan is the
sentinel plan, which never reads the response body and returns the same
sentinel for every body. -/
theorem c5_204_sentinel :
    ∀ (statuses : List String) (extracted : Option JVal)
      (schemas : List (String × MSchema)) (cfg : Option SimplifyCfg)
      (fieldDefaults : List (String × JVal)) (hide : List String)
      (successSchema : Option MSchema) (noun : String),
      is204ResponseOf statuses = true →
      "success" ∉ hide → "status" ∉ hide →
        actionSample statuses extracted schemas cfg fieldDefaults hide = sentinel204Value
        ∧ actionResponsePlan statuses successSchema schemas noun cfg = .sentinel204
        ∧ (actionResponsePlan statuses successSchema schemas noun cfg).readsBody = false
        ∧ ∀ body,
            runResponsePlan (actionResponsePlan statuses successSchema schemas noun cfg) body
              = sentinel204Value := by
  intro statuses extracted schemas cfg fieldDefaults hide successSchema noun h204 hh1 hh2
  have hplan : actionResponsePlan statuses successSchema schemas noun cfg = .sentinel204 := by
    simp [actionResponsePlan, h204]
  refine ⟨?_, hplan, by rw [hplan]; rfl, fun body => by rw [hplan]; rfl⟩
  simp only [actionSample, h204, if_true]
  rcases cfg with _ | c
  · exact cleanupActionSample_sentinel hide hh1 hh2
  · cases hce : c.enabled with
    | false =>
        simp only [hce, Bool.false_eq_true, if_false]
        exact cleanupActionSample_sentinel hide hh1 hh2
    | true =>
        simp only [hce, if_true]
        rcases hfa : c.flattenArray with _ | fa
        · simp only [hfa]
          exact cleanupActionSample_sentinel hide hh1 hh2
        · simp only [hfa]
          rcases hpn : fa.publicName with _ | pn
          · simp only [hpn]
            exact cleanupActionSample_sentinel hide hh1 hh2
          · simp only [hpn]
            rw [show jsTruthy sentinel204Value = true from rfl]
            simp only [if_true]
            rw [restructureSample_sentinel]
            exact cleanupActionSample_sentinel hide hh1 hh2

/-- C5 witness: the sentinel contract at a concrete 204-only endpoint with
a grouped simplify configuration. -/
theorem c5_204_sentinel_witness :
    actionSample ["204"] (some (.obj [("z", .num 1)])) schemasAB (some cfgGroup) [] []
        = sentinel204Value
    ∧ actionResponsePlan ["204"] (some rbSchemaAB) schemasAB "Category" (some cfgGroup)
        = .sentinel204
    ∧ runResponsePlan
        (actionResponsePlan ["204"] (some rbSchemaAB) schemasAB "Category" (some cfgGroup))
        (.obj [("anything", .str "ignored")]) = sentinel204Value := by
  have h := c5_204_sentinel ["204"] (some (.obj [("z", .num 1)])) schemasAB (some cfgGroup)
    [] [] (some rbSchemaAB) "Category" (by decide) (by simp) (by simp)
  exact ⟨h.1, h.2.1, h.2.2.2 (.obj [("anything", .str "ignored")])⟩

/-! ## C6: exclusivity of type and children on emitted fields -/

/-- C6, corrected (amended part).  Every emitted field with a non-empty
children list carries no type; every emitted field without children
carries its source field's type; and every field the schema mapper
produces has a primitive type (string, datetime, number or boolean).
The claim's exactly-one-of invariant fails only for a configured
grouping parent whose children were all hidden: it keeps its non-primitive
object type (see the counterexample). -/
theorem c6_field_exclusivity_amended :
    (∀ f : ZField, (emitField f).children ≠ [] → (emitField f).typ = none)
    ∧ (∀ f : ZField, (emitField f).children = [] → (emitField f).typ = some f.typ)
    ∧ (∀ (schema : Option MSchema) (name : String) (req : Bool)
        (desc : Option String),
        (schemaToZapierField schema name req desc).typ ∈ primitiveFieldTypes) := by
  refine ⟨?_, ?_, ?_⟩
  · intro f h
    rcases hch : f.children with _ | (_ | ⟨c, cs⟩)
    · exact absurd (by simp [emitField, hch]) h
    · exact absurd (by simp [emitField, hch]) h
    · simp [emitField, hch]
  · intro f h
    rcases hch : f.children with _ | (_ | ⟨c, cs⟩)
    · simp [emitField, hch]
    · simp [emitField, hch]
    · exfalso
      rw [show (emitField f).children = (c :: cs).map emitChildField from by
        simp [emitField, hch]] at h
      simp at h
  · intro schema name req desc
    rcases schema with _ | s
    · simp [schemaToZapierField, ZField.typ, primitiveFieldTypes]
    · simp only [schemaToZapierField]
      repeat' split
      all_goals simp [ZField.typ, primitiveFieldTypes]

/-- C6 witness: the exclusivity conjuncts applied at a concrete parent
field with one child (children emitted, no type) and at a concrete string
schema (primitive type). -/
theorem c6_field_exclusivity_witness :
    (emitField (ZField.mk "p" "P" "object" "" true none none none
        (some [ZField.base "a" "A" "string" "" false]) none)).typ = none
    ∧ (schemaToZapierField (some strSchema) "a" false none).typ ∈ primitiveFieldTypes := by
  constructor
  · exact c6_field_exclusivity_amended.1 _ (List.cons_ne_nil _ _)
  · exact c6_field_exclusivity_amended.2.2 (some strSchema) "a" false none

/-- C6 counterexample: hiding every item property (here a and b) under a
grouped simplify configuration makes the generator emit the grouping
parent with no children and the non-primitive type object, violating
exactly-one-of (primitive type, non-empty children). -/
theorem c6_counterexample :
    actionBodyFields "opC6" schemasAB (some ⟨false, some rbSchemaAB⟩)
        (some cfgGroup) ["a", "b"] []
      = .ok [childlessParentField]
    ∧ ¬ fieldExclusive (emitField childlessParentField) := by
  refine ⟨rfl, ?_⟩
  rintro (⟨⟨t, ht, hmem⟩, _⟩ | ⟨hnone, _⟩)
  · have h2 : (some "object" : Option String) = some t := by
      rw [show (emitField childlessParentField).typ = some "object" from rfl] at ht
      exact ht
    rw [← Option.some_inj.mp h2] at hmem
    simp [primitiveFieldTypes] at hmem
  · rw [show (emitField childlessParentField).typ = some "object" from rfl] at hnone
    exact Option.noConfusion hnone

/-! ## C7: the flatten round-trip -/

/-- C7, confirmed.  With simplify.flattenArray on arrayField items over
the item schema (a string, b number): without a public name the action's
input fields are exactly a and b; with public name Group they are one
parent field keyed group with children a and b; and in either mode
building the request body from the input (a x, b 1) yields
items: [(a x, b 1)]. -/
theorem c7_flatten_round_trip :
    (actionInputFields "op" schemasAB [] (some ⟨false, some rbSchemaAB⟩) (some cfgFlat) []
        = .ok [ZField.mk "a" "A" "string" "" false none none none none none,
               ZField.mk "b" "B" "number" "" false none none none none none])
    ∧ (actionInputFields "op" schemasAB [] (some ⟨false, some rbSchemaAB⟩) (some cfgGroup) []
        = .ok [ZField.mk "group" "Group" "object" "" true none none none
            (some [ZField.mk "a" "A" "string" "" false none none none none none,
                   ZField.mk "b" "B" "number" "" false none none none none none]) none])
    ∧ (buildSimplifiedRequestBody schemasAB faFlat [] [] [] [("a", .str "x"), ("b", .num 1)]
        = [("items", .arr [.obj [("a", .str "x"), ("b", .num 1)]])])
    ∧ (buildSimplifiedRequestBody schemasAB faGroup [] [] [] [("a", .str "x"), ("b", .num 1)]
        = [("items", .arr [.obj [("a", .str "x"), ("b", .num 1)]])]) :=
  ⟨rfl, rfl, rfl, rfl⟩

/-! ## C8: the hidden-trigger placeholder field -/

/-- C8, confirmed.  A hidden trigger's final input field list is never
empty: when the computed list is empty the generator appends the
placeholder field (key id_placeholder, type string, default placeholder,
not required), and otherwise leaves the list unchanged. -/
theorem c8_hidden_trigger_placeholder :
    ∀ fields : List ZField,
      finalTriggerInputFields true fields ≠ []
      ∧ (fields = [] →
          finalTriggerInputFields true fields = [placeholderField]
          ∧ placeholderField.key = "id_placeholder"
          ∧ placeholderField.typ = "string"
          ∧ placeholderField.default = some (.str "placeholder")
          ∧ placeholderField.required = false)
      ∧ (fields ≠ [] → finalTriggerInputFields true fields = fields) := by
  intro fields
  rcases fields with _ | ⟨f, fs⟩
  · refine ⟨by simp [finalTriggerInputFields], fun _ => ⟨rfl, rfl, rfl, rfl, rfl⟩,
      fun h => absurd rfl h⟩
  · refine ⟨?_, fun h => List.noConfusion h, fun _ => ?_⟩
    · simp [finalTriggerInputFields]
    · simp [finalTriggerInputFields]

/-- C8 witness: the placeholder conjunct applied at the empty field
list. -/
theorem c8_hidden_trigger_placeholder_witness :
    finalTriggerInputFields true [] = [placeholderField]
    ∧ finalTriggerInputFields true [] ≠ [] :=
  ⟨((c8_hidden_trigger_placeholder []).2.1 rfl).1, (c8_hidden_trigger_placeholder []).1⟩

/-! ## C9: the description length cap and the trailing period -/

/-- The capped description never exceeds 1000 characters. -/
theorem truncateDescription_length_le (l : List Char) :
    (truncateDescription l).length ≤ 1000 := by
  unfold truncateDescription
  split
  · simp [List.length_take]
  · omega

/-- Appending a non-whitespace character survives the trailing trim. -/
theorem trimEnd_concat (l : List Char) (c : Char) (hc : c.isWhitespace = false) :
    trimEnd (l ++ [c]) = l ++ [c] := by
  simp [trimEnd, List.dropWhile, hc]

/-- If the front-trimmed form of m ends in c, so does m itself. -/
theorem getLast?_trimStart (m : List Char) (c : Char)
    (h : (trimStart m).getLast? = some c) : m.getLast? = some c := by
  have hsplit : m.takeWhile Char.isWhitespace ++ trimStart m = m :=
    List.takeWhile_append_dropWhile Char.isWhitespace m
  rw [← hsplit, List.getLast?_append, h]
  rfl

/-- Truncation preserves a trailing period (after trailing-whitespace
trim): the truncated form ends in the appended dots. -/
theorem trimEnd_truncate_dot (l : List Char)
    (h : (trimEnd l).getLast? = some '.') :
    (trimEnd (truncateDescription l)).getLast? = some '.' := by
  unfold truncateDescription
  split
  · rw [show l.take 997 ++ ['.', '.', '.']
        = (l.take 997 ++ ['.', '.']) ++ ['.'] by simp]
    rw [trimEnd_concat _ '.' (by decide)]
    exact List.getLast?_concat _
  · exact h

/-- C9, corrected.  Generated action descriptions and visible trigger
descriptions are capped at 1000 characters, and text longer than 1000
characters is cut to its first 997 characters plus three dots.  The
period clause holds only up to trailing whitespace: whenever the
configured title is non-empty, the visible trigger's description ends
with a period after trailing whitespace is trimmed.  (As literally
stated the period clause is false: a title whose trimmed form already
ends in a period is kept verbatim, so a title with trailing whitespace
yields a description ending in whitespace, not in a period.) -/
theorem c9_description_contract :
    (∀ d s, (actionDescription d s).length ≤ 1000)
    ∧ (∀ t d s, (triggerVisibleDescription t d s).length ≤ 1000)
    ∧ (∀ l : List Char, l.length > 1000 →
        truncateDescription l = l.take 997 ++ ['.', '.', '.']
        ∧ (truncateDescription l).length = 1000)
    ∧ (∀ t d s, t ≠ [] →
        (trimEnd (triggerVisibleDescription t d s)).getLast? = some '.') := by
  refine ⟨?_, ?_, ?_, ?_⟩
  · intro d s
    exact truncateDescription_length_le _
  · intro t d s
    exact truncateDescription_length_le _
  · intro l h
    constructor
    · rw [truncateDescription, if_pos h]
    · rw [truncateDescription, if_pos h]
      simp [List.length_take]
      omega
  · intro t d s ht
    simp only [triggerVisibleDescription]
    rw [show jsOrStr t (jsOrStr d (jsOrStr s [])) = t from by
      rw [jsOrStr, if_neg ht]]
    split
    · apply trimEnd_truncate_dot
      rw [trimEnd_concat _ '.' (by decide)]
      exact List.getLast?_concat _
    · rename_i hneg
      push_neg at hneg
      apply trimEnd_truncate_dot
      exact getLast?_trimStart (trimEnd t) '.' (hneg ht)

/-- C9 counterexample: the title "Triggers when a transaction posts. "
(note the trailing space) already ends with a period once trimmed, so the
generator keeps it verbatim and the emitted visible description ends with
a space rather than a period. -/
theorem c9_counterexample :
    (triggerVisibleDescription
        "Triggers when a transaction posts. ".toList [] []).getLast?
      = some ' '
    ∧ (triggerVisibleDescription
        "Triggers when a transaction posts. ".toList [] []).getLast?
      ≠ some '.' := by
  constructor
  · rfl
  · decide

/-- C9 witness: the truncation conjunct applied at a 1001-character
description, and the period conjunct applied at a non-empty title with no
trailing period. -/
theorem c9_description_contract_witness :
    ((List.replicate 1001 'x').length > 1000
      ∧ truncateDescription (List.replicate 1001 'x')
          = (List.replicate 1001 'x').take 997 ++ ['.', '.', '.'])
    ∧ ("Triggers when a payment posts".toList ≠ []
      ∧ (trimEnd (triggerVisibleDescription
            "Triggers when a payment posts".toList [] [])).getLast?
          = some '.') := by
  have h1 : (List.replicate 1001 'x').length > 1000 := by
    rw [List.length_replicate]
    omega
  have h2 : "Triggers when a payment posts".toList ≠ [] := by decide
  exact ⟨⟨h1, (c9_description_contract.2.2.1 _ h1).1⟩,
         ⟨h2, c9_description_contract.2.2.2 _ [] [] h2⟩⟩

/-! ## C10: descending-id ordering of polling trigger output -/

/-- C10, confirmed (perform assembly modelled from the spec, the sort
and filter fragments translated from the source).  For a polling
(non-hidden) trigger: the sort fragment is the descending-id sort;
sorting permutes the accumulated results, losing and duplicating
nothing; the sorted list is ordered by descending id with a missing id
read as 0; and the perform plan's output — the filter applied after the
sort — is still ordered by descending id, so trigger output is
newest-id-first regardless of the order the server returned items in.  A
hidden trigger's fragment leaves the order unchanged. -/
theorem c10_sort_descending :
    (∀ results : List RItem, sortFragment false results = sortResults results)
    ∧ (∀ results : List RItem, (sortResults results).Perm results)
    ∧ (∀ results : List RItem,
        (sortResults results).Pairwise (fun a b => idOf b ≤ idOf a))
    ∧ (∀ (results : List RItem) (keep : RItem → Bool),
        (triggerPerform false results keep).Pairwise (fun a b => idOf b ≤ idOf a))
    ∧ (∀ results : List RItem, sortFragment true results = results) := by
  have hsorted : ∀ results : List RItem,
      (sortResults results).Pairwise (fun a b => idOf b ≤ idOf a) := by
    intro results
    have hp : (sortResults results).Pairwise
        (fun a b => decide (idOf b ≤ idOf a) = true) := by
      apply List.sorted_mergeSort
      · intro a b c hab hbc
        exact decide_eq_true
          (le_trans (of_decide_eq_true hbc) (of_decide_eq_true hab))
      · intro a b
        rcases le_total (idOf a) (idOf b) with h | h <;> simp [h]
    exact hp.imp (fun h => of_decide_eq_true h)
  refine ⟨fun results => rfl, fun results => List.mergeSort_perm results _,
    hsorted, fun results keep => (hsorted results).filter keep,
    fun results => rfl⟩

end OpenapiZapier
